import Mathlib

/-!
Verification development for the `env_loader_pro` repository.

We give a shallow embedding of the multi-source configuration resolution and
merge engine (`src/env_loader_pro/core/{merger,loader,policy}.py` and
`src/env_loader_pro/settings.py`) and prove/refute the specified properties.

Python dictionaries are modelled as insertion-ordered association lists
(`List (String × α)`) with first-match lookup; Python's `dict.update` / item
assignment are modelled by `setKey`/`updateD`, which overwrite values in place
(preserving key order) and append fresh keys, matching CPython semantics.
-/

set_option autoImplicit false

namespace EnvLoaderPro

/-- Insertion-ordered association list standing for a Python `dict`. -/
abbrev Entries (α : Type) : Type := List (String × α)

/-- `d[k]` lookup (first match; Python dicts have unique keys). -/
def lookupD {α : Type} : Entries α → String → Option α
  | [], _ => none
  | (k', v) :: rest, k => if k' = k then some v else lookupD rest k

/-- `k in d`. -/
def hasKey {α : Type} (d : Entries α) (k : String) : Bool :=
  (lookupD d k).isSome

/-- `d[k] = v`: overwrite in place if the key exists, else append. -/
def setKey {α : Type} (d : Entries α) (k : String) (v : α) : Entries α :=
  if hasKey d k then d.map (fun p => if p.1 = k then (p.1, v) else p)
  else d ++ [(k, v)]

/-- `base.update(upd)` (mutating `base`): fold `setKey` over `upd`'s items. -/
def updateD {α : Type} (base upd : Entries α) : Entries α :=
  upd.foldl (fun acc p => setKey acc p.1 p.2) base

/-! ## Reference expansion (`core/loader.py`, `_expand_variables`, lines 22–39)

The Python function substitutes `${NAME}` occurrences (regex `\$\{([^}]+)\}`,
applied left to right and non-overlapping by `re.sub`) with the recursively
expanded value of `env_dict[NAME]`, keeping the literal text when `NAME` is
absent, and raising a circular-reference error when `NAME` is already in the
in-progress `visited` set.  The recursion is embedded with explicit fuel
(one unit per recursive step) so that the definition is structural; the
top-level wrapper supplies fuel that dominates the actual recursion depth. -/

/-- Errors of the expansion routine. `circular n` models
`EnvLoaderError("Circular reference detected for variable: n")`;
`fuelExhausted` is the out-of-fuel marker of the embedding (never reached by
the top-level wrapper on inputs where the Python function terminates). -/
inductive ExpErr : Type where
  | circular (name : String)
  | fuelExhausted
deriving DecidableEq, Repr

/-- Given the characters after a literal `"${"`, return the regex match of
`([^}]+)\}`: the (nonempty) run of non-`'}'` characters together with the rest
after the closing brace, or `none` when the regex cannot match here. -/
def splitName (cs : List Char) : Option (List Char × List Char) :=
  match cs.dropWhile (fun c => c != '}') with
  | '}' :: rest =>
    let name := cs.takeWhile (fun c => c != '}')
    if name.isEmpty then none else some (name, rest)
  | _ => none

/-- Fuelled embedding of `_expand_variables`: scan the value left to right;
on a `${NAME}` match, fail if `NAME` is in `visited`, keep the literal text if
`NAME` is not a key of `env`, and otherwise splice in the recursive expansion
of `env[NAME]` under `NAME :: visited` (the Python code adds `NAME` to the
mutable set before the recursive call and removes it after, so sibling
expansions see the original set). -/
def expandF (env : Entries String) : Nat → List Char → List String → Except ExpErr (List Char)
  | _, [], _ => .ok []
  | 0, _ :: _, _ => .error .fuelExhausted
  | fuel + 1, c :: cs, visited =>
    if c = '$' then
      match cs with
      | '{' :: cs2 =>
        match splitName cs2 with
        | none => (expandF env fuel cs visited).map (fun r => c :: r)
        | some (nameChars, rest) =>
          let name : String := ⟨nameChars⟩
          if name ∈ visited then .error (.circular name)
          else
            match lookupD env name with
            | none => (expandF env fuel rest visited).map
                (fun r => '$' :: '{' :: (nameChars ++ '}' :: r))
            | some v =>
              match expandF env fuel v.data (name :: visited) with
              | .error e => .error e
              | .ok e =>
                match expandF env fuel rest visited with
                | .error e2 => .error e2
                | .ok r => .ok (e ++ r)
      | _ => (expandF env fuel cs visited).map (fun r => c :: r)
    else (expandF env fuel cs visited).map (fun r => c :: r)

/-- Total length of all keys and values of the environment. -/
def envTotalLen (env : Entries String) : Nat :=
  env.foldl (fun n p => n + p.1.length + p.2.length) 0

/-- Fuel that dominates the work of any terminating run of
`_expand_variables`: nesting depth is bounded by the number of environment
keys (each level adds a distinct key to `visited`), and the work per level is
bounded by the total length of the material being scanned. -/
def bigFuel (value : String) (env : Entries String) : Nat :=
  (envTotalLen env + value.length + 1) ^ (env.length + 1)

/-- Top-level `_expand_variables(value, env_dict)` (fresh empty visited set). -/
def expandVariables (value : String) (env : Entries String) : Except ExpErr String :=
  (expandF env (bigFuel value env) value.data []).map (fun cs => ⟨cs⟩)

example : expandVariables "no dollars" [("A", "1")] = .ok "no dollars" := by rfl
example : expandVariables "x${A}y" [("A", "1")] = .ok "x1y" := by rfl
example : expandVariables "${MISSING}" [("A", "1")] = .ok "${MISSING}" := by rfl
example : expandVariables "${A}" [("A", "${A}")] = .error (.circular "A") := by rfl
example : expandVariables "${A}" [("A", "${B}"), ("B", "${A}")] = .error (.circular "A") := by rfl
example : expandVariables "${A}${A}" [("A", "1")] = .ok "11" := by rfl
example : expandVariables "${A}" [("A", "${B}${B}"), ("B", "1")] = .ok "11" := by rfl
example : expandVariables "cost $5 {x}" [] = .ok "cost $5 {x}" := by rfl
example : expandVariables "${}" [("A", "1")] = .ok "${}" := by rfl
example : expandVariables "$\x7bA" [("A", "1")] = .ok "$\x7bA" := by rfl

/-! ## Source priority and the merge engine
(`settings.py` lines 26–35, `core/tracing.py`, `core/merger.py`) -/

/-- `SOURCE_PRIORITY.get(s, 999)` from `settings.py`: fixed ranks, lower
number = higher priority (1 = highest, 6 = lowest). -/
def sourcePriority (s : String) : Nat :=
  if s = "cloud_providers" then 1
  else if s = "system" then 2
  else if s = "docker_k8s" then 3
  else if s = "env_specific" then 4
  else if s = "base_file" then 5
  else if s = "schema_defaults" then 6
  else 999

/-- The default `priority_order` list built inside `ConfigurationMerger.merge`
when the caller passes `None`. -/
def defaultPriorityOrder : List String :=
  ["cloud_providers", "system", "docker_k8s", "env_specific", "base_file",
   "schema_defaults"]

/-- `Origin` enum from `core/tracing.py`. -/
inductive Origin : Type where
  | cloudAzure
  | cloudAws
  | system
  | docker
  | k8s
  | fileEnvSpecific
  | fileBase
  | schemaDefault
  | unknown
deriving DecidableEq, Repr

/-- `ConfigurationMerger._get_origin_for_source`. -/
def getOriginForSource (sourceName : String) : Origin :=
  if sourceName = "cloud_providers" then .cloudAzure
  else if sourceName = "system" then .system
  else if sourceName = "docker_k8s" then .docker
  else if sourceName = "env_specific" then .fileEnvSpecific
  else if sourceName = "base_file" then .fileBase
  else if sourceName = "schema_defaults" then .schemaDefault
  else .unknown

/-- Stable insertion of `s` into a list already sorted by `sourcePriority`:
`s` goes after every element of rank ≤ its own. -/
def insertByRank (s : String) : List String → List String
  | [] => [s]
  | t :: ts =>
    if sourcePriority s < sourcePriority t then s :: t :: ts
    else t :: insertByRank s ts

/-- `sorted(priority_order, key=lambda s: SOURCE_PRIORITY.get(s, 999))`:
a stable ascending sort by rank (Python's `sorted` is stable; stable
insertion sort computes the same list). -/
def sortByRank (l : List String) : List String :=
  l.foldl (fun acc s => insertByRank s acc) []

example : sortByRank ["base_file", "system", "env_specific"]
    = ["system", "env_specific", "base_file"] := by rfl
example : sortByRank defaultPriorityOrder = defaultPriorityOrder := by rfl

/-- `set(sources.keys()) - set(priority_order)`, as the list of offending
bundle keys (merger.py lines 52–57). -/
def unknownSources {α : Type} (sources : Entries α) (order : List String) :
    List String :=
  (sources.map Prod.fst).filter (fun s => decide (s ∉ order))

/-- The merge loop of lines 59–83: iterate the rank-sorted order, and for each
source present in the bundle record origins (when tracing) and fold the
source into the accumulator with `merged.update(source_config)`. -/
def mergeBody (traceEnabled : Bool) (sources : Entries (Entries String))
    (order : List String) : Entries String × Entries Origin :=
  (sortByRank order).foldl
    (fun acc sourceName =>
      match lookupD sources sourceName with
      | none => acc
      | some sourceConfig =>
        let origins :=
          if traceEnabled then
            sourceConfig.foldl
              (fun os p => setKey os p.1 (getOriginForSource sourceName)) acc.2
          else acc.2
        (updateD acc.1 sourceConfig, origins))
    ([], [])

/-- `ConfigurationMerger.merge(sources, priority_order)` (lines 21–83).
The tracer is modelled by its observable state: `traceEnabled` stands for
`self.tracer and self.tracer.enabled`, and the returned association list of
origins is the tracer's `_origins` map after the call (`record` overwrites).
The error payload is the list of unknown source names
(`set(sources.keys()) - set(priority_order)`). -/
def mergeS (traceEnabled : Bool) (sources : Entries (Entries String))
    (priorityOrder : Option (List String)) :
    Except (List String) (Entries String × Entries Origin) :=
  let order := priorityOrder.getD defaultPriorityOrder
  if (unknownSources sources order).isEmpty then
    .ok (mergeBody traceEnabled sources order)
  else .error (unknownSources sources order)

example :
    mergeS true [("env_specific", [("PORT", "9000")]), ("base_file", [("PORT", "8080")])] none
      = .ok ([("PORT", "8080")], [("PORT", .fileBase)]) := by rfl
example :
    mergeS true [("cloud_providers", [("K", "hi")]), ("schema_defaults", [("K", "lo")])] none
      = .ok ([("K", "lo")], [("K", .schemaDefault)]) := by rfl
example :
    mergeS false [("bogus", [("K", "v")]), ("system", [])] none
      = .error ["bogus"] := by rfl
example : mergeS true [] none = .ok ([], []) := by rfl

/-! ## Failure policies (`core/policy.py`) -/

/-- `FailurePolicy` enum. -/
inductive FailurePolicy : Type where
  | fail
  | warn
  | fallback
deriving DecidableEq, Repr

/-- `FailurePolicy(s)`: `none` models the `ValueError` Python raises for a
string that is not one of the enum values. -/
def failurePolicyOfString (s : String) : Option FailurePolicy :=
  if s = "fail" then some .fail
  else if s = "warn" then some .warn
  else if s = "fallback" then some .fallback
  else none

/-- An underlying Python exception, abstracted to its type and message. -/
structure PyExc : Type where
  ty : String
  msg : String
deriving DecidableEq, Repr

/-- `PolicyManager` observable state: the resolved `self.policies` dict and
`self.default_policy`. -/
structure PolicyManager : Type where
  policies : Entries FailurePolicy
  defaultPolicy : FailurePolicy
deriving DecidableEq, Repr

/-- Python `str.lower()` (ASCII case folding suffices for the identifiers
appearing in this code base). -/
def lowerStr (s : String) : String :=
  ⟨s.data.map Char.toLower⟩

/-- The constructor's loop over `policies.items()`:
`FailurePolicy(policy_str.lower())`, falling back to the default policy on
`ValueError` (the `try`/`except` of lines 73–78). -/
def initPolicies (dp : FailurePolicy) (policies : Entries String) : Entries FailurePolicy :=
  policies.map (fun p => (p.1, (failurePolicyOfString (lowerStr p.2)).getD dp))

/-- `PolicyManager.__init__(policies, default_policy)`.
`FailurePolicy(default_policy)` sits outside the `try`, so an invalid default
raises (modelled by `.error`); per-entry conversion never raises. -/
def mkPolicyManager (policies : Entries String) (defaultPolicy : String) :
    Except String PolicyManager :=
  match failurePolicyOfString defaultPolicy with
  | none => .error defaultPolicy
  | some dp => .ok ⟨initPolicies dp policies, dp⟩

/-- Characters of `needle` appear as a prefix of `hay` (Python `s.startswith`
building block). -/
def isPrefixC : List Char → List Char → Bool
  | [], _ => true
  | _ :: _, [] => false
  | a :: as, b :: bs => a == b && isPrefixC as bs

/-- Python `needle in hay` contiguous-substring test on characters. -/
def isSubstrC (needle : List Char) : List Char → Bool
  | [] => isPrefixC needle []
  | c :: t => isPrefixC needle (c :: t) || isSubstrC needle t

example : isSubstrC "vaultprovider".data "myvaultproviderimpl".data = true := by rfl
example : isSubstrC "azure".data "myvaultproviderimpl".data = false := by rfl
example : isSubstrC "".data "x".data = true := by rfl

/-- `PolicyManager.get_policy` (lines 80–99): exact dict lookup first, then
the first configured key matching case-insensitively as a substring in either
direction, then the default policy. -/
def getPolicy (pm : PolicyManager) (providerName : String) : FailurePolicy :=
  match lookupD pm.policies providerName with
  | some p => p
  | none =>
    let providerLower := lowerStr providerName
    match pm.policies.find?
        (fun p => isSubstrC (lowerStr p.1).data providerLower.data
          || isSubstrC providerLower.data (lowerStr p.1).data) with
    | some kp => kp.2
    | none => pm.defaultPolicy

/-- The message built by `handle_error` (no `context` argument). -/
def providerErrorMsg (providerName : String) (error : PyExc) : String :=
  "Provider " ++ providerName ++ " error" ++ ": " ++ error.msg

/-- `ProviderError(error_msg) from error`: the raised wrapper carries the
formatted message and the original exception as its cause. -/
structure ProviderError : Type where
  msg : String
  cause : PyExc
deriving DecidableEq, Repr

/-- `PolicyManager.handle_error` (lines 101–131): FAIL raises the wrapping
`ProviderError`; WARN and FALLBACK only log and return normally. -/
def handleError (pm : PolicyManager) (providerName : String) (error : PyExc) :
    Except ProviderError Unit :=
  match getPolicy pm providerName with
  | .fail => .error ⟨providerErrorMsg providerName error, error⟩
  | .warn => .ok ()
  | .fallback => .ok ()

/-- `PolicyManager.should_continue`. -/
def shouldContinue (pm : PolicyManager) (providerName : String) : Bool :=
  getPolicy pm providerName != .fail

/-- `create_default_policies()`. -/
def createDefaultPolicies : Entries String :=
  [("azure", "fail"), ("aws", "fallback"), ("filesystem", "warn"),
   ("docker", "warn"), ("kubernetes", "warn")]

example :
    (mkPolicyManager [("vaultProvider", "fail")] "warn").map
      (fun pm => getPolicy pm "MyVaultProviderImpl") = .ok .fail := by rfl
example :
    (mkPolicyManager [("x", "faill")] "warn").map (fun pm => getPolicy pm "x")
      = .ok .warn := by rfl

/-! ## Provider loading and the `load_env` pipeline (`core/loader.py`) -/

/-- A provider as `_load_from_providers` sees it: its class name and the
outcome of its `get_all()` call (a mapping, or a raised exception). -/
structure Provider : Type where
  name : String
  fetch : Except PyExc (Entries String)

/-- Union of the exceptions `load_env` can propagate on the modelled path. -/
inductive LoadError : Type where
  | provider (e : ProviderError)
  | providerRaw (e : PyExc)
  | config (unknown : List String)
  | expansion (e : ExpErr)
deriving DecidableEq, Repr

/-- `_load_from_providers` (lines 121–200), modelled without the value cache:
the cache object is freshly constructed per `load_env` call, so every first
read misses and the provider values pass through unchanged.  On a raising
provider, `handle_error` is consulted (raising `ProviderError` under the FAIL
policy), and the bare `raise` of line 198 re-raises the original exception
when `should_continue` is false. -/
def loadFromProviders (pm : PolicyManager) :
    List Provider → Entries String → Except LoadError (Entries String)
  | [], acc => .ok acc
  | p :: rest, acc =>
    match p.fetch with
    | .ok vals => loadFromProviders pm rest (updateD acc vals)
    | .error e =>
      match handleError pm p.name e with
      | .error pe => .error (.provider pe)
      | .ok _ =>
        if shouldContinue pm p.name then loadFromProviders pm rest acc
        else .error (.providerRaw e)

/-- Python `'${' in v`. -/
def hasDollarBrace : List Char → Bool
  | '$' :: '{' :: _ => true
  | _ :: cs => hasDollarBrace cs
  | [] => false

/-- The re-expansion pass after merging (lines 443–446): iterate over a
snapshot of `merged.items()`, expanding each value containing `"${"` against
the current (already partially re-expanded) mapping and writing it back. -/
def reexpand (merged : Entries String) : Except ExpErr (Entries String) :=
  merged.foldlM
    (fun acc p =>
      if hasDollarBrace p.2.data then
        (expandVariables p.2 acc).map (fun e => setKey acc p.1 e)
      else pure acc)
    merged

/-- `merged.setdefault(k, str(v))` over the defaults (lines 448–450). -/
def applyDefaults (merged defaults : Entries String) : Entries String :=
  defaults.foldl
    (fun acc p => if hasKey acc p.1 then acc else setKey acc p.1 p.2) merged

/-- The policy manager `load_env` constructs (lines 289–292): the caller's
`failure_policy` dict, or `create_default_policies()`; default policy
`"warn"`. -/
def loadEnvPolicyManager (failurePolicy : Option (Entries String)) : PolicyManager :=
  ⟨initPolicies .warn (failurePolicy.getD createDefaultPolicies), .warn⟩

/-- The data path of `load_env` (lines 282–467) under the string-valued
configuration (no `types`, `rules`, `schema`, policy-as-code or validation
failures), with the file system and process environment abstracted to their
already-parsed contributions: `baseFile`/`envSpecific` are the parsed
mappings when the corresponding file exists, `dockerK8s` is the combined
`{**docker_vars, **k8s_vars}` contribution when nonempty, `systemEnv` is
`dict(os.environ)`, and `defaults` carries the already-stringified default
values (`{k: str(v)}`).  Sources are assembled exactly as in the code,
merged by `ConfigurationMerger.merge`, re-expanded, and topped up with
`setdefault` over the defaults (the later "replace stringified defaults"
loop of lines 462–467 rewrites each affected key to the identical string on
this path, so it is the identity). -/
def loadEnv (trace : Bool) (failurePolicy : Option (Entries String))
    (defaults : Entries String) (baseFile envSpecific dockerK8s : Option (Entries String))
    (systemEnv : Entries String) (providers : List Provider) :
    Except LoadError (Entries String) :=
  let pm := loadEnvPolicyManager failurePolicy
  let sources0 : Entries (Entries String) :=
    (if defaults.isEmpty then [] else [("schema_defaults", defaults)])
    ++ (match baseFile with | some m => [("base_file", m)] | none => [])
    ++ (match envSpecific with | some m => [("env_specific", m)] | none => [])
    ++ (match dockerK8s with | some m => [("docker_k8s", m)] | none => [])
    ++ [("system", systemEnv)]
  match loadFromProviders pm providers [] with
  | .error e => .error e
  | .ok providerVars =>
    let sources :=
      if providerVars.isEmpty then sources0
      else sources0 ++ [("cloud_providers", providerVars)]
    match mergeS trace sources none with
    | .error u => .error (.config u)
    | .ok (merged, _) =>
      match reexpand merged with
      | .error e => .error (.expansion e)
      | .ok merged2 => .ok (applyDefaults merged2 defaults)

example :
    loadEnv false none [("PORT", "1")] (some [("PORT", "8080")]) none none [] []
      = .ok [("PORT", "1")] := by rfl
example :
    loadEnv false none [] (some [("PORT", "8080")]) (some [("PORT", "9000")]) none [] []
      = .ok [("PORT", "8080")] := by rfl
example :
    loadEnv false (some [("Boom", "fail")]) [] none none none []
      [⟨"BoomProvider", .error ⟨"RuntimeError", "down"⟩⟩]
      = .error (.provider ⟨"Provider BoomProvider error: down", ⟨"RuntimeError", "down"⟩⟩) := by rfl
example :
    loadEnv false none [] none none none [("HOST", "h")]
      [⟨"WarnyProvider", .error ⟨"RuntimeError", "down"⟩⟩]
      = .ok [("HOST", "h")] := by rfl

/-! ## Object-level store model for the mutation claims (`core/merger.py`)

To talk about mutation and aliasing we re-render `ConfigurationMerger.merge`
and `merge_with_override` over an explicit store of dictionary objects:
addresses stand for Python object identities, `allocD` for constructing a
fresh dict (`{}` / `dict(base)`), and `writeD` for in-place mutation
(`merged.update(...)`). -/

/-- A store of dictionary objects; `next` is the next fresh address. -/
structure Store (α : Type) : Type where
  heap : List (Nat × Entries α)
  next : Nat

/-- Address lookup in the heap. -/
def lookupAddr {α : Type} : List (Nat × Entries α) → Nat → Option (Entries α)
  | [], _ => none
  | (a, d) :: rest, x => if a = x then some d else lookupAddr rest x

/-- Contents of the dict object at address `a`. -/
def readD {α : Type} (σ : Store α) (a : Nat) : Entries α :=
  (lookupAddr σ.heap a).getD []

/-- Allocate a fresh dict object with contents `d`. -/
def allocD {α : Type} (σ : Store α) (d : Entries α) : Nat × Store α :=
  (σ.next, ⟨(σ.next, d) :: σ.heap, σ.next + 1⟩)

/-- Overwrite the contents of the dict object at address `a`. -/
def writeD {α : Type} (σ : Store α) (a : Nat) (d : Entries α) : Store α :=
  ⟨σ.heap.map (fun p => (p.1, if p.1 = a then d else p.2)), σ.next⟩

theorem lookupAddr_cons {α : Type} (b : Nat) (e : Entries α)
    (t : List (Nat × Entries α)) (a : Nat) :
    lookupAddr ((b, e) :: t) a = if b = a then some e else lookupAddr t a := rfl

/-- Every allocated address is below `next`. -/
def StoreWF {α : Type} (σ : Store α) : Prop :=
  ∀ p ∈ σ.heap, p.1 < σ.next

/-- One iteration of the merge loop at the object level: if `sourceName` is
present in the bundle, read the source object and mutate the `merged` object
at address `m` with `merged.update(source_config)`. -/
def mergeStep {α : Type} (sources : Entries Nat) (m : Nat) (σc : Store α)
    (sourceName : String) : Store α :=
  match lookupD sources sourceName with
  | none => σc
  | some addr => writeD σc m (updateD (readD σc m) (readD σc addr))

/-- `ConfigurationMerger.merge` at the object level: `sources` maps source
names to addresses of the caller's dict objects; `merged = {}` is a fresh
allocation (address `σ.next`), and each `merged.update(sources[source_name])`
reads the source object and mutates only `merged`. -/
def mergeOp {α : Type} (σ : Store α) (sources : Entries Nat)
    (priorityOrder : Option (List String)) : Except (List String) Nat × Store α :=
  let order := priorityOrder.getD defaultPriorityOrder
  if (unknownSources sources order).isEmpty then
    (.ok σ.next, (sortByRank order).foldl (mergeStep sources σ.next) (allocD σ []).2)
  else (.error (unknownSources sources order), σ)

/-- `ConfigurationMerger.merge_with_override` at the object level:
`merged = dict(base)` allocates a fresh copy, `merged.update(override)`
mutates only that copy. -/
def mergeWithOverrideOp {α : Type} (σ : Store α) (base override : Nat) :
    Nat × Store α :=
  let (mergedA, σ1) := allocD σ (readD σ base)
  (mergedA, writeD σ1 mergedA (updateD (readD σ1 mergedA) (readD σ1 override)))

example :
    (mergeOp (α := String) ⟨[(0, [("K", "b")]), (1, [("K", "o")])], 2⟩
        [("base_file", 0), ("system", 1)] none).1 = .ok 2 := by rfl
example :
    readD ((mergeOp (α := String) ⟨[(0, [("K", "b")]), (1, [("K", "o")])], 2⟩
        [("base_file", 0), ("system", 1)] none).2) 0 = [("K", "b")] := by rfl
example :
    readD ((mergeOp (α := String) ⟨[(0, [("K", "b")]), (1, [("K", "o")])], 2⟩
        [("base_file", 0), ("system", 1)] none).2) 2 = [("K", "b")] := by rfl

/-! ## Claim theorems -/

/-- C1 (code bug): contrary to the claim, `ConfigurationMerger.merge` sorts
the priority order ascending by rank and lets the last-processed source win
`dict.update`, so the LOWEST-priority source containing a key supplies its
final value and recorded origin.  At the failing input — a bundle where
`env_specific` (rank 4) and `base_file` (rank 5) both define `PORT` — the
merge returns the `base_file` value `"8080"` with origin `FILE_BASE`, while
the claim (and the repository's own `test_multiple_environments`) require
the `env_specific` value `"9000"` with origin `FILE_ENV_SPECIFIC`. -/
theorem merge_lowest_priority_wins_at_failing_input :
    mergeS true [("env_specific", [("PORT", "9000")]), ("base_file", [("PORT", "8080")])]
        none
      = .ok ([("PORT", "8080")], [("PORT", .fileBase)]) := rfl

/-- C2 (code bug): because caller-supplied defaults enter the merge as the
`schema_defaults` source and the merge lets the lowest-priority source win
(see C1), a default OVERRIDES a real value supplied by the base `.env` file:
with `defaults={"PORT": "1"}` and the base file contributing `PORT=8080`,
`load_env` returns `PORT="1"` instead of keeping the file's `"8080"`. -/
theorem loadEnv_default_overrides_file_at_failing_input :
    loadEnv false none [("PORT", "1")] (some [("PORT", "8080")]) none none [] []
      = .ok [("PORT", "1")] := rfl

/-- C7: for every policy manager, provider name and underlying exception,
`handle_error` raises a `ProviderError` wrapping the original error when the
resolved policy is Fail, and returns normally when the resolved policy is
Warn or Fallback. -/
theorem handleError_fail_raises_warn_fallback_returns
    (pm : PolicyManager) (name : String) (e : PyExc) :
    (getPolicy pm name = .fail →
      handleError pm name e = .error ⟨providerErrorMsg name e, e⟩)
    ∧ (getPolicy pm name = .warn ∨ getPolicy pm name = .fallback →
      handleError pm name e = .ok ()) := by
  refine ⟨fun h => ?_, fun h => ?_⟩
  · simp [handleError, h]
  · rcases h with h | h <;> simp [handleError, h]

/-- Witness for C7 at concrete inputs. -/
theorem handleError_fail_raises_warn_fallback_returns_witness :
    handleError ⟨[("azure", .fail)], .warn⟩ "azure" ⟨"E", "m"⟩
        = .error ⟨providerErrorMsg "azure" ⟨"E", "m"⟩, ⟨"E", "m"⟩⟩
    ∧ handleError ⟨[("aws", .fallback)], .warn⟩ "aws" ⟨"E", "m"⟩ = .ok () :=
  ⟨(handleError_fail_raises_warn_fallback_returns ⟨[("azure", .fail)], .warn⟩
      "azure" ⟨"E", "m"⟩).1 rfl,
   (handleError_fail_raises_warn_fallback_returns ⟨[("aws", .fallback)], .warn⟩
      "aws" ⟨"E", "m"⟩).2 (Or.inr rfl)⟩

/-- C10: for every policies dictionary, `PolicyManager` construction with the
default `"warn"` default-policy succeeds, and an entry whose lowercased
policy string is not a valid `FailurePolicy` value is silently bound to the
default policy; concretely, the misspelling `"faill"` downgrades its
provider to Warn. -/
theorem policyManager_init_invalid_policy_defaults (policies : Entries String) :
    (mkPolicyManager policies "warn").isOk = true
    ∧ (∀ pm, mkPolicyManager policies "warn" = .ok pm →
        pm.defaultPolicy = .warn
        ∧ ∀ p s, (p, s) ∈ policies → failurePolicyOfString (lowerStr s) = none →
            (p, FailurePolicy.warn) ∈ pm.policies)
    ∧ (mkPolicyManager [("x", "faill")] "warn").map (fun pm => getPolicy pm "x")
        = .ok .warn := by
  have hmk : mkPolicyManager policies "warn" = .ok ⟨initPolicies .warn policies, .warn⟩ := rfl
  refine ⟨by rw [hmk]; rfl, fun pm hpm => ?_, by rfl⟩
  rw [hmk] at hpm
  have hpm' : pm = ⟨initPolicies .warn policies, .warn⟩ := by
    injection hpm with h; exact h.symm
  subst hpm'
  refine ⟨rfl, fun p s hmem hnone => ?_⟩
  simpa [initPolicies, hnone] using
    List.mem_map_of_mem
      (fun q => (q.1, (failurePolicyOfString (lowerStr q.2)).getD FailurePolicy.warn)) hmem

/-- Witness for C10 at the misspelled policy `"faill"`. -/
theorem policyManager_init_invalid_policy_defaults_witness :
    ("x", FailurePolicy.warn) ∈
      (PolicyManager.mk (initPolicies .warn [("x", "faill")]) .warn).policies :=
  ((policyManager_init_invalid_policy_defaults [("x", "faill")]).2.1
    ⟨initPolicies .warn [("x", "faill")], .warn⟩ rfl).2 "x" "faill" (by decide) rfl

/-- C3: `ConfigurationMerger.merge` succeeds exactly when every source name of
the bundle appears in the priority order, and when it raises, the error
payload lists exactly the offending names. -/
theorem mergeS_unknown_source_iff (t : Bool) (sources : Entries (Entries String))
    (po : Option (List String)) :
    ((∃ r, mergeS t sources po = .ok r) ↔
      ∀ s ∈ sources.map Prod.fst, s ∈ po.getD defaultPriorityOrder)
    ∧ (∀ e, mergeS t sources po = .error e →
        ∀ n, n ∈ e ↔ (n ∈ sources.map Prod.fst ∧ n ∉ po.getD defaultPriorityOrder)) := by
  set order := po.getD defaultPriorityOrder with horder
  have hmem : ∀ n, n ∈ unknownSources sources order ↔
      (n ∈ sources.map Prod.fst ∧ n ∉ order) := by
    intro n
    simp [unknownSources, List.mem_filter]
  by_cases h : (unknownSources sources order).isEmpty = true
  · have hempty : unknownSources sources order = [] := by
      simpa [List.isEmpty_iff] using h
    have hrun : mergeS t sources po = .ok (mergeBody t sources order) := by
      simp [mergeS, ← horder, h]
    constructor
    · rw [hrun]
      constructor
      · intro _ s hs
        by_contra hns
        have hin : s ∈ unknownSources sources order := (hmem s).mpr ⟨hs, hns⟩
        rw [hempty] at hin
        cases hin
      · intro _
        exact ⟨mergeBody t sources order, rfl⟩
    · intro e he
      rw [hrun] at he
      cases he
  · have hne : unknownSources sources order ≠ [] := by
      intro hnil
      exact h (by simp [hnil])
    have hrun : mergeS t sources po = .error (unknownSources sources order) := by
      simp [mergeS, ← horder, h]
    constructor
    · rw [hrun]
      constructor
      · rintro ⟨r, hr⟩
        cases hr
      · intro hall
        obtain ⟨n, hn⟩ := List.exists_mem_of_ne_nil _ hne
        obtain ⟨hn1, hn2⟩ := (hmem n).mp hn
        exact absurd (hall n hn1) hn2
    · intro e he
      rw [hrun] at he
      injection he with h'
      intro n
      rw [← h']
      exact hmem n

/-- Witness for C3: a bundle with the unregistered name `"bogus"` errors with
exactly that name; the edge-case empty bundle succeeds. -/
theorem mergeS_unknown_source_iff_witness :
    ("bogus" ∈ ["bogus"] ↔
      ("bogus" ∈ ([("bogus", ([("K", "v")] : Entries String))].map Prod.fst)
        ∧ "bogus" ∉ (none : Option (List String)).getD defaultPriorityOrder))
    ∧ (∃ r, mergeS true [] none = .ok r) :=
  ⟨(mergeS_unknown_source_iff false [("bogus", [("K", "v")])] none).2 ["bogus"] rfl "bogus",
   (mergeS_unknown_source_iff true [] none).1.mpr (by intro s hs; cases hs)⟩

/-- If some provider in the list fails its fetch and resolves to the Fail
policy, `_load_from_providers` propagates a `ProviderError` whatever the
other providers do. -/
theorem loadFromProviders_fail_policy_aborts (pm : PolicyManager)
    (p : Provider) (e : PyExc)
    (hf : p.fetch = .error e) (hpol : getPolicy pm p.name = .fail) :
    ∀ l : List Provider, p ∈ l → ∀ acc,
      ∃ pe : ProviderError, loadFromProviders pm l acc = .error (.provider pe) := by
  intro l
  induction l with
  | nil => intro hp; cases hp
  | cons q rest ih =>
    intro hp acc
    rcases List.mem_cons.mp hp with heq | hmem
    · subst heq
      refine ⟨⟨providerErrorMsg p.name e, e⟩, ?_⟩
      have hhe : handleError pm p.name e = .error ⟨providerErrorMsg p.name e, e⟩ := by
        simp [handleError, hpol]
      simp only [loadFromProviders, hf, hhe]
    · cases hq : q.fetch with
      | ok vals =>
        simpa only [loadFromProviders, hq] using ih hmem (updateD acc vals)
      | error e' =>
        cases hpolq : getPolicy pm q.name with
        | fail =>
          refine ⟨⟨providerErrorMsg q.name e', e'⟩, ?_⟩
          have hhe : handleError pm q.name e' = .error ⟨providerErrorMsg q.name e', e'⟩ := by
            simp [handleError, hpolq]
          simp only [loadFromProviders, hq, hhe]
        | warn =>
          have hhe : handleError pm q.name e' = .ok () := by simp [handleError, hpolq]
          have hsc : shouldContinue pm q.name = true := by
            unfold shouldContinue; rw [hpolq]; decide
          simp only [loadFromProviders, hq, hhe, hsc, if_true]
          exact ih hmem acc
        | fallback =>
          have hhe : handleError pm q.name e' = .ok () := by simp [handleError, hpolq]
          have hsc : shouldContinue pm q.name = true := by
            unfold shouldContinue; rw [hpolq]; decide
          simp only [loadFromProviders, hq, hhe, hsc, if_true]
          exact ih hmem acc

/-- C4: if any provider whose resolved failure policy is Fail raises during
its fetch, the whole `load_env` call raises a `ProviderError` and returns no
configuration mapping at all. -/
theorem loadEnv_fail_policy_aborts (trace : Bool) (fp : Option (Entries String))
    (defaults : Entries String) (bf es dk : Option (Entries String))
    (sys : Entries String) (providers : List Provider) (p : Provider) (e : PyExc)
    (hp : p ∈ providers) (hf : p.fetch = .error e)
    (hpol : getPolicy (loadEnvPolicyManager fp) p.name = .fail) :
    ∃ pe : ProviderError,
      loadEnv trace fp defaults bf es dk sys providers = .error (.provider pe) := by
  obtain ⟨pe, hlp⟩ :=
    loadFromProviders_fail_policy_aborts (loadEnvPolicyManager fp) p e hf hpol
      providers hp []
  exact ⟨pe, by simp only [loadEnv, hlp]⟩

/-- Witness for C4: a failing provider matched by a `"fail"` policy entry
makes the whole load return an error. -/
theorem loadEnv_fail_policy_aborts_witness :
    ∃ pe : ProviderError,
      loadEnv false (some [("Boom", "fail")]) [] none none none []
          [⟨"BoomProvider", .error ⟨"RuntimeError", "down"⟩⟩]
        = .error (.provider pe) :=
  loadEnv_fail_policy_aborts false (some [("Boom", "fail")]) [] none none none []
    [⟨"BoomProvider", .error ⟨"RuntimeError", "down"⟩⟩]
    ⟨"BoomProvider", .error ⟨"RuntimeError", "down"⟩⟩ ⟨"RuntimeError", "down"⟩
    (List.mem_singleton.mpr rfl) rfl rfl

/-- Overwriting the object at address `w` does not change lookups at any
other address. -/
theorem lookupAddr_map_write_ne {α : Type} (heap : List (Nat × Entries α))
    (w a : Nat) (d : Entries α) (hne : a ≠ w) :
    lookupAddr (heap.map (fun p => (p.1, if p.1 = w then d else p.2))) a
      = lookupAddr heap a := by
  induction heap with
  | nil => rfl
  | cons hd tl ih =>
    obtain ⟨b, eb⟩ := hd
    rw [List.map_cons]
    show lookupAddr ((b, if b = w then d else eb) :: _) a = _
    rw [lookupAddr_cons, lookupAddr_cons]
    by_cases hba : b = a
    · subst hba
      rw [if_pos rfl, if_pos rfl, if_neg hne]
    · rw [if_neg hba, if_neg hba, ih]

/-- `readD` version of `lookupAddr_map_write_ne`. -/
theorem readD_writeD_ne {α : Type} (σ : Store α) (w a : Nat) (d : Entries α)
    (h : a ≠ w) : readD (writeD σ w d) a = readD σ a := by
  unfold readD writeD
  rw [lookupAddr_map_write_ne σ.heap w a d h]

/-- A fresh allocation does not change lookups at other addresses. -/
theorem readD_allocD_ne {α : Type} (σ : Store α) (d : Entries α) (a : Nat)
    (h : a ≠ σ.next) : readD (allocD σ d).2 a = readD σ a := by
  show (lookupAddr ((σ.next, d) :: σ.heap) a).getD [] = _
  rw [lookupAddr_cons, if_neg (fun hh => h hh.symm)]
  rfl

/-- One merge iteration mutates only the `merged` object at address `m`. -/
theorem readD_mergeStep_ne {α : Type} (sources : Entries Nat) (m : Nat)
    (σc : Store α) (s : String) (a : Nat) (h : a ≠ m) :
    readD (mergeStep sources m σc s) a = readD σc a := by
  unfold mergeStep
  cases lookupD sources s with
  | none => rfl
  | some addr => exact readD_writeD_ne _ _ _ _ h

/-- `mergeStep` allocates nothing. -/
theorem mergeStep_next {α : Type} (sources : Entries Nat) (m : Nat)
    (σc : Store α) (s : String) : (mergeStep sources m σc s).next = σc.next := by
  unfold mergeStep
  cases lookupD sources s with
  | none => rfl
  | some addr => rfl

/-- The whole merge loop mutates only the `merged` object at address `m`. -/
theorem readD_foldl_mergeStep_ne {α : Type} (sources : Entries Nat) (m : Nat) :
    ∀ (l : List String) (σc : Store α) (a : Nat), a ≠ m →
      readD (l.foldl (mergeStep sources m) σc) a = readD σc a := by
  intro l
  induction l with
  | nil => intro σc a _; rfl
  | cons s rest ih =>
    intro σc a h
    rw [List.foldl_cons, ih _ _ h, readD_mergeStep_ne _ _ _ _ _ h]

/-- C9: neither `ConfigurationMerger.merge` nor `merge_with_override` mutates
any pre-existing dict object (in particular none of the input mappings), and
each returns a freshly allocated mapping whose address differs from every
input's. -/
theorem merger_ops_no_mutation {α : Type} (σ : Store α) (sources : Entries Nat)
    (po : Option (List String)) (base override : Nat)
    (hsrc : ∀ s ∈ sources, s.2 < σ.next)
    (hb : base < σ.next) (ho : override < σ.next) :
    ((∀ a, a < σ.next → readD (mergeOp σ sources po).2 a = readD σ a)
      ∧ (∀ m, (mergeOp σ sources po).1 = .ok m →
          ¬ m < σ.next ∧ ∀ s ∈ sources, m ≠ s.2))
    ∧ ((∀ a, a < σ.next → readD (mergeWithOverrideOp σ base override).2 a = readD σ a)
      ∧ ¬ (mergeWithOverrideOp σ base override).1 < σ.next
      ∧ (mergeWithOverrideOp σ base override).1 ≠ base
      ∧ (mergeWithOverrideOp σ base override).1 ≠ override) := by
  constructor
  · by_cases hu :
        (unknownSources sources (po.getD defaultPriorityOrder)).isEmpty = true
    · have hrun : mergeOp σ sources po
          = (.ok σ.next,
             (sortByRank (po.getD defaultPriorityOrder)).foldl
               (mergeStep sources σ.next) (allocD σ []).2) := by
        simp [mergeOp, hu]
      rw [hrun]
      constructor
      · intro a ha
        have hne : a ≠ σ.next := Nat.ne_of_lt ha
        rw [readD_foldl_mergeStep_ne _ _ _ _ _ hne, readD_allocD_ne _ _ _ hne]
      · intro m hm
        injection hm with hm'
        subst hm'
        exact ⟨Nat.lt_irrefl _, fun s hs => Nat.ne_of_gt (hsrc s hs)⟩
    · have hrun : mergeOp σ sources po
          = (.error (unknownSources sources (po.getD defaultPriorityOrder)), σ) := by
        simp [mergeOp, hu]
      rw [hrun]
      exact ⟨fun a _ => rfl, fun m hm => by cases hm⟩
  · have h1 : (mergeWithOverrideOp σ base override).1 = σ.next := rfl
    refine ⟨?_, ?_, ?_, ?_⟩
    · intro a ha
      have hne : a ≠ σ.next := Nat.ne_of_lt ha
      show readD (writeD (allocD σ (readD σ base)).2 σ.next _) a = readD σ a
      rw [readD_writeD_ne _ _ _ _ hne, readD_allocD_ne _ _ _ hne]
    · rw [h1]; exact Nat.lt_irrefl _
    · rw [h1]; exact Nat.ne_of_gt hb
    · rw [h1]; exact Nat.ne_of_gt ho

/-- Witness for C9 at a concrete two-object store. -/
theorem merger_ops_no_mutation_witness :
    readD ((mergeOp (α := String) ⟨[(0, [("K", "b")]), (1, [("K", "o")])], 2⟩
        [("base_file", 0), ("system", 1)] none).2) 0
      = readD (⟨[(0, [("K", "b")]), (1, [("K", "o")])], 2⟩ : Store String) 0
    ∧ (mergeWithOverrideOp (⟨[(0, [("K", "b")]), (1, [("K", "o")])], 2⟩ : Store String)
        0 1).1 ≠ 0 :=
  ⟨((merger_ops_no_mutation (⟨[(0, [("K", "b")]), (1, [("K", "o")])], 2⟩ : Store String)
      [("base_file", 0), ("system", 1)] none 0 1 (by decide) (by decide)
      (by decide)).1.1 0 (by decide)),
   ((merger_ops_no_mutation (⟨[(0, [("K", "b")]), (1, [("K", "o")])], 2⟩ : Store String)
      [("base_file", 0), ("system", 1)] none 0 1 (by decide) (by decide)
      (by decide)).2.2.2.1)⟩

/-- `takeWhile (≠ '}')` recovers the name before the closing brace. -/
theorem takeWhile_no_brace (name post : List Char) (h : '}' ∉ name) :
    (name ++ '}' :: post).takeWhile (fun c => c != '}') = name := by
  induction name with
  | nil => rfl
  | cons c rest ih =>
    have hc : c ≠ '}' := fun hh => h (hh ▸ List.mem_cons_self c rest)
    have hcb : (c != '}') = true := bne_iff_ne.mpr hc
    simp only [List.cons_append, List.takeWhile_cons, hcb, if_true,
      ih (fun hm => h (List.mem_cons_of_mem _ hm))]

/-- `dropWhile (≠ '}')` lands exactly on the closing brace. -/
theorem dropWhile_no_brace (name post : List Char) (h : '}' ∉ name) :
    (name ++ '}' :: post).dropWhile (fun c => c != '}') = '}' :: post := by
  induction name with
  | nil => rfl
  | cons c rest ih =>
    have hc : c ≠ '}' := fun hh => h (hh ▸ List.mem_cons_self c rest)
    have hcb : (c != '}') = true := bne_iff_ne.mpr hc
    simp only [List.cons_append, List.dropWhile_cons, hcb, if_true,
      ih (fun hm => h (List.mem_cons_of_mem _ hm))]

/-- The regex `\$\{([^}]+)\}` matches `${name}` exactly when `name` is a
nonempty brace-free run: `splitName` splits it off. -/
theorem splitName_append (name post : List Char) (hne : name ≠ [])
    (hnb : '}' ∉ name) :
    splitName (name ++ '}' :: post) = some (name, post) := by
  have hie : name.isEmpty = false := by
    cases name with
    | nil => exact absurd rfl hne
    | cons c r => rfl
  simp [splitName, dropWhile_no_brace name post hnb,
    takeWhile_no_brace name post hnb, hie]

/-- C5: requesting expansion of a variable that is already in-progress fails
with a circular-reference error naming that variable (general head form),
and concretely: the self-reference context and the two-cycle context raise
naming the offending variable, while repeated references to the same
variable in acyclic contexts succeed because the in-progress set is released
per branch. -/
theorem expansion_cycle_detection :
    (∀ (env : Entries String) (fuel : Nat) (visited : List String)
        (nameChars post : List Char),
        nameChars ≠ [] → '}' ∉ nameChars → (⟨nameChars⟩ : String) ∈ visited →
        expandF env (fuel + 1) ('$' :: '{' :: (nameChars ++ '}' :: post)) visited
          = .error (.circular ⟨nameChars⟩))
    ∧ expandVariables "${A}" [("A", "${A}")] = .error (.circular "A")
    ∧ expandVariables "${A}" [("A", "${B}"), ("B", "${A}")] = .error (.circular "A")
    ∧ expandVariables "${A}${A}" [("A", "1")] = .ok "11"
    ∧ expandVariables "${A}" [("A", "${B}${B}"), ("B", "1")] = .ok "11" := by
  refine ⟨?_, rfl, rfl, rfl, rfl⟩
  intro env fuel visited nameChars post hne hnb hvis
  have hsp := splitName_append nameChars post hne hnb
  simp only [expandF, hsp, reduceIte]
  rw [if_pos hvis]

/-- Witness for C5's general head form at a concrete in-progress set. -/
theorem expansion_cycle_detection_witness :
    expandF [] 1 ('$' :: '{' :: ("A".data ++ '}' :: [])) ["A"]
      = .error (.circular "A") :=
  expansion_cycle_detection.1 [] 0 ["A"] "A".data [] (by decide) (by decide)
    (by decide)

/-- Scanning a `'$'`-free value never changes it (given enough fuel, one unit
per character). -/
theorem expandF_no_dollar (env : Entries String) :
    ∀ (value : List Char) (fuel : Nat) (visited : List String),
      value.length ≤ fuel → (∀ c ∈ value, c ≠ '$') →
      expandF env fuel value visited = .ok value := by
  intro value
  induction value with
  | nil => intro fuel visited _ _; cases fuel <;> rfl
  | cons c cs ih =>
    intro fuel visited hlen hnd
    cases fuel with
    | zero => simp at hlen
    | succ f =>
      have hc : c ≠ '$' := hnd c (List.mem_cons_self _ _)
      have hstep : expandF env (f + 1) (c :: cs) visited
          = (expandF env f cs visited).map (fun r => c :: r) := by
        simp only [expandF, if_neg hc]
      have hlen' : cs.length ≤ f := by
        simp only [List.length_cons] at hlen
        omega
      rw [hstep, ih f visited hlen' (fun x hx => hnd x (List.mem_cons_of_mem _ hx))]
      rfl

/-- Scanning past a `'$'`-free prefix copies it and continues. -/
theorem expandF_append_no_dollar (env : Entries String) :
    ∀ (pre : List Char) (fuel : Nat) (rest : List Char) (visited : List String),
      (∀ c ∈ pre, c ≠ '$') →
      expandF env (pre.length + fuel) (pre ++ rest) visited
        = (expandF env fuel rest visited).map (fun r => pre ++ r) := by
  intro pre
  induction pre with
  | nil =>
    intro fuel rest visited _
    simp only [List.nil_append, List.length_nil, Nat.zero_add]
    cases expandF env fuel rest visited <;> rfl
  | cons c pre' ih =>
    intro fuel rest visited hnd
    have hc : c ≠ '$' := hnd c (List.mem_cons_self _ _)
    have hlen : (c :: pre').length + fuel = (pre'.length + fuel) + 1 := by
      simp only [List.length_cons]
      omega
    rw [hlen]
    have hstep : expandF env ((pre'.length + fuel) + 1) (c :: (pre' ++ rest)) visited
        = (expandF env (pre'.length + fuel) (pre' ++ rest) visited).map
            (fun r => c :: r) := by
      simp only [expandF, if_neg hc]
    rw [List.cons_append, hstep,
      ih fuel rest visited (fun x hx => hnd x (List.mem_cons_of_mem _ hx))]
    cases expandF env fuel rest visited <;> rfl

/-- An occurrence `${name}` whose name is absent from the context is kept
literally and scanning continues, without error. -/
theorem expandF_absent_name (env : Entries String) (fuel : Nat)
    (nameChars post : List Char) (visited : List String)
    (hne : nameChars ≠ []) (hnb : '}' ∉ nameChars)
    (hvis : (⟨nameChars⟩ : String) ∉ visited)
    (hlook : lookupD env ⟨nameChars⟩ = none) :
    expandF env (fuel + 1) ('$' :: '{' :: (nameChars ++ '}' :: post)) visited
      = (expandF env fuel post visited).map
          (fun r => '$' :: '{' :: (nameChars ++ '}' :: r)) := by
  have hsp := splitName_append nameChars post hne hnb
  simp only [expandF, hsp, reduceIte]
  rw [if_neg hvis, hlook]

/-- An occurrence `${name}` whose name is bound in the context is replaced by
the recursive expansion of the bound value (under the extended in-progress
set) and scanning continues. -/
theorem expandF_present_name (env : Entries String) (fuel : Nat)
    (nameChars post : List Char) (visited : List String) (v : String)
    (hne : nameChars ≠ []) (hnb : '}' ∉ nameChars)
    (hvis : (⟨nameChars⟩ : String) ∉ visited)
    (hlook : lookupD env ⟨nameChars⟩ = some v) :
    expandF env (fuel + 1) ('$' :: '{' :: (nameChars ++ '}' :: post)) visited
      = (expandF env fuel v.data ((⟨nameChars⟩ : String) :: visited)).bind
          (fun e => (expandF env fuel post visited).map (fun r => e ++ r)) := by
  have hsp := splitName_append nameChars post hne hnb
  simp only [expandF, hsp, reduceIte]
  rw [if_neg hvis, hlook]
  show (match expandF env fuel v.data ((⟨nameChars⟩ : String) :: visited) with
        | Except.error e => Except.error e
        | Except.ok e =>
          match expandF env fuel post visited with
          | Except.error e2 => Except.error e2
          | Except.ok r => Except.ok (e ++ r))
      = (expandF env fuel v.data ((⟨nameChars⟩ : String) :: visited)).bind
          (fun e => (expandF env fuel post visited).map (fun r => e ++ r))
  cases expandF env fuel v.data ((⟨nameChars⟩ : String) :: visited) with
  | error e => rfl
  | ok e => cases expandF env fuel post visited <;> rfl

/-- A `'$'` not followed by `'{'` is copied literally and scanning continues
with the following character (the regex `\$\{` cannot match there). -/
theorem expandF_dollar_not_brace (env : Entries String) (fuel : Nat) (c : Char)
    (cs : List Char) (visited : List String) (hc : c ≠ '{') :
    expandF env (fuel + 1) ('$' :: c :: cs) visited
      = (expandF env fuel (c :: cs) visited).map (fun r => '$' :: r) := by
  simp only [expandF, reduceIte]
  split
  · rename_i cs2 heq
    injection heq with h1 h2
    exact absurd h1 hc
  · rfl

/-- A trailing `'$'` at the end of the value is literal. -/
theorem expandF_dollar_end (env : Entries String) (fuel : Nat)
    (visited : List String) :
    expandF env (fuel + 1) ['$'] visited = .ok ['$'] := by
  have h0 : expandF env fuel [] visited = .ok [] :=
    expandF_no_dollar env [] fuel visited (Nat.zero_le _)
      (fun c hc => absurd hc (List.not_mem_nil c))
  simp only [expandF, reduceIte, h0]
  rfl

/-- When the regex cannot match after a `"${"` (no closing brace with a
nonempty name), the `'$'` is copied literally and scanning continues from the
`'{'` — no error is raised. -/
theorem expandF_unmatched_open (env : Entries String) (fuel : Nat)
    (cs2 : List Char) (visited : List String) (hnone : splitName cs2 = none) :
    expandF env (fuel + 1) ('$' :: '{' :: cs2) visited
      = (expandF env fuel ('{' :: cs2) visited).map (fun r => '$' :: r) := by
  simp only [expandF, reduceIte, hnone]

/-- With no closing brace at all, `dropWhile (≠ '}')` consumes everything. -/
theorem dropWhile_all_no_brace (cs : List Char) (h : '}' ∉ cs) :
    cs.dropWhile (fun c => c != '}') = [] := by
  induction cs with
  | nil => rfl
  | cons c rest ih =>
    have hc : c ≠ '}' := fun hh => h (hh ▸ List.mem_cons_self c rest)
    have hcb : (c != '}') = true := bne_iff_ne.mpr hc
    simp only [List.dropWhile_cons, hcb, if_true,
      ih (fun hm => h (List.mem_cons_of_mem _ hm))]

/-- `splitName` finds no match when the text after `"${"` has no closing
brace. -/
theorem splitName_eq_none_of_no_brace (cs : List Char) (h : '}' ∉ cs) :
    splitName cs = none := by
  unfold splitName
  rw [dropWhile_all_no_brace cs h]

/-- `splitName` finds no match on an empty name (`"${}"`): the regex requires
at least one non-brace character. -/
theorem splitName_empty_name (rest : List Char) :
    splitName ('}' :: rest) = none := rfl

/-- The wrapper's fuel dominates the value's length. -/
theorem length_le_bigFuel (v : String) (env : Entries String) :
    v.data.length ≤ bigFuel v env := by
  have h1 : v.data.length ≤ envTotalLen env + v.length + 1 := by
    have : v.length = v.data.length := rfl
    omega
  have h2 : envTotalLen env + v.length + 1
      ≤ (envTotalLen env + v.length + 1) ^ (env.length + 1) :=
    Nat.le_self_pow (Nat.succ_ne_zero _) _
  exact le_trans h1 h2

/-- C6: expansion substitutes `${NAME}` occurrences, leaves absent names and
all other text literally unchanged, and is the identity on values without a
`'$'`: (i) top-level expansion of a `'$'`-free value returns it unchanged;
(ii) a `'$'`-free prefix is copied verbatim and scanning continues; (iii) an
occurrence `${NAME}` with `NAME` absent from the context stays literal,
without error; (iv) an occurrence `${NAME}` with `NAME` bound is replaced by
the recursively expanded bound value; (v) a `'$'` not followed by `'{'` is
literal, (vi) also at the end of the value; (vii) a `"${"` where the regex
cannot match (no closing brace with a nonempty name) is literal, which by
(viii) covers text with no closing brace at all and by (ix) the empty name
`"${}"`; concretely (x)–(xii): `"cost $5"`, an unmatched `"${A"` and the
empty-name `"${}"` all expand to themselves without error. -/
theorem expansion_substitution_semantics :
    (∀ (v : String) (env : Entries String),
        (∀ c ∈ v.data, c ≠ '$') → expandVariables v env = .ok v)
    ∧ (∀ (env : Entries String) (pre : List Char) (fuel : Nat)
        (rest : List Char) (visited : List String),
        (∀ c ∈ pre, c ≠ '$') →
        expandF env (pre.length + fuel) (pre ++ rest) visited
          = (expandF env fuel rest visited).map (fun r => pre ++ r))
    ∧ (∀ (env : Entries String) (fuel : Nat) (nameChars post : List Char)
        (visited : List String),
        nameChars ≠ [] → '}' ∉ nameChars → (⟨nameChars⟩ : String) ∉ visited →
        lookupD env ⟨nameChars⟩ = none →
        expandF env (fuel + 1) ('$' :: '{' :: (nameChars ++ '}' :: post)) visited
          = (expandF env fuel post visited).map
              (fun r => '$' :: '{' :: (nameChars ++ '}' :: r)))
    ∧ (∀ (env : Entries String) (fuel : Nat) (nameChars post : List Char)
        (visited : List String) (v : String),
        nameChars ≠ [] → '}' ∉ nameChars → (⟨nameChars⟩ : String) ∉ visited →
        lookupD env ⟨nameChars⟩ = some v →
        expandF env (fuel + 1) ('$' :: '{' :: (nameChars ++ '}' :: post)) visited
          = (expandF env fuel v.data ((⟨nameChars⟩ : String) :: visited)).bind
              (fun e => (expandF env fuel post visited).map (fun r => e ++ r)))
    ∧ (∀ (env : Entries String) (fuel : Nat) (c : Char) (cs : List Char)
        (visited : List String), c ≠ '{' →
        expandF env (fuel + 1) ('$' :: c :: cs) visited
          = (expandF env fuel (c :: cs) visited).map (fun r => '$' :: r))
    ∧ (∀ (env : Entries String) (fuel : Nat) (visited : List String),
        expandF env (fuel + 1) ['$'] visited = .ok ['$'])
    ∧ (∀ (env : Entries String) (fuel : Nat) (cs2 : List Char)
        (visited : List String), splitName cs2 = none →
        expandF env (fuel + 1) ('$' :: '{' :: cs2) visited
          = (expandF env fuel ('{' :: cs2) visited).map (fun r => '$' :: r))
    ∧ (∀ cs : List Char, '}' ∉ cs → splitName cs = none)
    ∧ (∀ rest : List Char, splitName ('}' :: rest) = none)
    ∧ expandVariables "cost $5" [("A", "1")] = .ok "cost $5"
    ∧ expandVariables "$\x7bA" [("A", "1")] = .ok "$\x7bA"
    ∧ expandVariables "${}" [("A", "1")] = .ok "${}" := by
  refine ⟨fun v env h => ?_, expandF_append_no_dollar, expandF_absent_name,
    expandF_present_name, expandF_dollar_not_brace, expandF_dollar_end,
    expandF_unmatched_open, splitName_eq_none_of_no_brace, splitName_empty_name,
    rfl, rfl, rfl⟩
  unfold expandVariables
  rw [expandF_no_dollar env v.data (bigFuel v env) [] (length_le_bigFuel v env) h]
  rfl

/-- Witness for C6 at concrete inputs (one per hypothesis-bearing conjunct). -/
theorem expansion_substitution_semantics_witness :
    expandVariables "host:port" [("A", "1")] = .ok "host:port"
    ∧ expandF [("A", "1")] ("xy".data.length + 9) ("xy".data ++ "${A}".data) []
        = (expandF [("A", "1")] 9 "${A}".data []).map (fun r => "xy".data ++ r)
    ∧ expandF [("A", "1")] (3 + 1) ('$' :: '{' :: ("B".data ++ '}' :: "!".data)) []
        = (expandF [("A", "1")] 3 "!".data []).map
            (fun r => '$' :: '{' :: ("B".data ++ '}' :: r))
    ∧ expandF [("A", "1")] (3 + 1) ('$' :: '{' :: ("A".data ++ '}' :: [])) []
        = (expandF [("A", "1")] 3 "1".data ["A"]).bind
            (fun e => (expandF [("A", "1")] 3 [] []).map (fun r => e ++ r))
    ∧ expandF [] (1 + 1) ('$' :: '5' :: []) []
        = (expandF [] 1 ('5' :: []) []).map (fun r => '$' :: r)
    ∧ expandF [] (1 + 1) ('$' :: '{' :: "A".data) []
        = (expandF [] 1 ('{' :: "A".data) []).map (fun r => '$' :: r)
    ∧ splitName "abc".data = none :=
  ⟨expansion_substitution_semantics.1 "host:port" [("A", "1")] (by decide),
   expansion_substitution_semantics.2.1 [("A", "1")] "xy".data 9 "${A}".data []
     (by decide),
   expansion_substitution_semantics.2.2.1 [("A", "1")] 3 "B".data "!".data []
     (by decide) (by decide) (by decide) rfl,
   expansion_substitution_semantics.2.2.2.1 [("A", "1")] 3 "A".data [] [] "1"
     (by decide) (by decide) (by decide) rfl,
   expansion_substitution_semantics.2.2.2.2.1 [] 1 '5' [] [] (by decide),
   expansion_substitution_semantics.2.2.2.2.2.2.1 [] 1 "A".data [] rfl,
   expansion_substitution_semantics.2.2.2.2.2.2.2.1 "abc".data (by decide)⟩

/-- `isPrefixC` decides the list-prefix relation. -/
theorem isPrefixC_iff_prefix : ∀ n h : List Char, isPrefixC n h = true ↔ n <+: h := by
  intro n
  induction n with
  | nil =>
    intro h
    simp [isPrefixC]
  | cons a as ih =>
    intro h
    cases h with
    | nil =>
      simp [isPrefixC]
    | cons b bs =>
      simp only [isPrefixC, Bool.and_eq_true, beq_iff_eq, ih bs,
        List.cons_prefix_cons]

/-- `isSubstrC` (Python's `in` on strings) decides the contiguous-substring
(list-infix) relation. -/
theorem isSubstrC_iff_infix : ∀ n h : List Char, isSubstrC n h = true ↔ n <:+: h := by
  intro n h
  induction h with
  | nil =>
    simp [isSubstrC, isPrefixC_iff_prefix]
  | cons c t ih =>
    simp only [isSubstrC, Bool.or_eq_true, isPrefixC_iff_prefix, ih,
      List.infix_cons_iff]

/-- The spec-level matching relation of `get_policy`: the configured key and
the provider name contain each other case-insensitively in one direction or
the other. -/
def ciMatches (key providerName : String) : Prop :=
  (lowerStr key).data <:+: (lowerStr providerName).data
  ∨ (lowerStr providerName).data <:+: (lowerStr key).data

/-- C8: `get_policy` returns the exact-match policy when the provider name is
a key of the policies dict; otherwise it returns the policy of a configured
key matching the provider name case-insensitively as a substring in either
direction, and the default policy when no key matches; concretely, with
`policies={"vaultProvider": "fail"}`, `get_policy("MyVaultProviderImpl")`
resolves to Fail via substring match. -/
theorem getPolicy_matching_spec (pm : PolicyManager) (name : String) :
    (∀ p, lookupD pm.policies name = some p → getPolicy pm name = p)
    ∧ (lookupD pm.policies name = none →
        (∃ kp ∈ pm.policies, ciMatches kp.1 name ∧ getPolicy pm name = kp.2)
        ∨ ((∀ kp ∈ pm.policies, ¬ ciMatches kp.1 name)
            ∧ getPolicy pm name = pm.defaultPolicy))
    ∧ (mkPolicyManager [("vaultProvider", "fail")] "warn").map
        (fun pm2 => getPolicy pm2 "MyVaultProviderImpl") = .ok .fail := by
  refine ⟨fun p hp => ?_, fun hnone => ?_, rfl⟩
  · simp [getPolicy, hp]
  · have hiff : ∀ kp : String × FailurePolicy,
        (isSubstrC (lowerStr kp.1).data (lowerStr name).data
          || isSubstrC (lowerStr name).data (lowerStr kp.1).data) = true
          ↔ ciMatches kp.1 name := by
      intro kp
      simp only [Bool.or_eq_true, isSubstrC_iff_infix]
      exact Iff.rfl
    cases hfind : pm.policies.find?
        (fun p => isSubstrC (lowerStr p.1).data (lowerStr name).data
          || isSubstrC (lowerStr name).data (lowerStr p.1).data) with
    | some kp =>
      left
      have hpkp := List.find?_some hfind
      exact ⟨kp, List.mem_of_find?_eq_some hfind,
        (hiff kp).mp hpkp, by simp [getPolicy, hnone, hfind]⟩
    | none =>
      right
      refine ⟨fun kp hkp hm => ?_, by simp [getPolicy, hnone, hfind]⟩
      exact (List.find?_eq_none.mp hfind kp hkp) ((hiff kp).mpr hm)

/-- Witness for C8: an exact match, and a no-match falling back to the
default. -/
theorem getPolicy_matching_spec_witness :
    getPolicy ⟨[("db", .fail)], .warn⟩ "db" = .fail
    ∧ ((∃ kp ∈ ([("vault", FailurePolicy.fail)] : Entries FailurePolicy),
          ciMatches kp.1 "x"
          ∧ getPolicy ⟨[("vault", FailurePolicy.fail)], .warn⟩ "x" = kp.2)
        ∨ ((∀ kp ∈ ([("vault", FailurePolicy.fail)] : Entries FailurePolicy),
            ¬ ciMatches kp.1 "x")
          ∧ getPolicy ⟨[("vault", FailurePolicy.fail)], .warn⟩ "x" = .warn)) :=
  ⟨(getPolicy_matching_spec ⟨[("db", .fail)], .warn⟩ "db").1 .fail rfl,
   (getPolicy_matching_spec ⟨[("vault", FailurePolicy.fail)], .warn⟩ "x").2.1 rfl⟩

end EnvLoaderPro
